import Mathlib

/-!
Shallow embedding of the Fateweaver card-game core, translated from
src/tarot_deck.py and src/fate_commands.py.

Python lists become Lean lists, card indices are Int (Python ints are
unbounded), exceptions become an explicit error type, and every mutating
method returns its result together with the post-state at the moment the
method returns or raises.  The module-global card_list that tarot_deck.py
loads once at startup is passed everywhere as an explicit parameter cat.
-/

/-- Python exception kinds the embedded code can raise.  typeError models
TypeError (list index that is None), nameError models NameError (reading a
loop variable that was never bound), indexError models IndexError, and
commandError models discord.ext.commands.CommandError. -/
inductive PyError
  | typeError
  | nameError
  | indexError
  | commandError
deriving DecidableEq, Repr

/-- Card record (tarot_deck.py, class Card). -/
structure Card where
  id : Int
  number : String
  name : String
  keywords : List String
  description : String
  image : String
deriving DecidableEq, Repr

/-- Python str.lower(), applied per character.  This is extensionally
String.toLower (which is String.map Char.toLower), written over the
character list so that it evaluates by kernel reduction. -/
def pyLower (s : String) : String :=
  ⟨s.data.map Char.toLower⟩

/-- Python list indexing l[i] for an int i: indices 0 ≤ i < len are
positions, -len ≤ i < 0 counts from the back, anything else raises
IndexError (modelled as none). -/
def pyGet (l : List Card) (i : Int) : Option Card :=
  if 0 ≤ i ∧ i < (l.length : Int) then l.get? i.toNat
  else if -(l.length : Int) ≤ i ∧ i < 0 then l.get? (i + (l.length : Int)).toNat
  else none

/-- getCard (tarot_deck.py line 17-18): return card_list[index]. -/
def getCard (cat : List Card) (index : Int) : Except PyError Card :=
  match pyGet cat index with
  | some c => Except.ok c
  | none => Except.error PyError.indexError

/-- Deck (tarot_deck.py, class Deck): an array of card indices. -/
structure Deck where
  card_nums : List Int
deriving DecidableEq, Repr

/-- Deck.__init__: self.card_nums = list(range(0, len(card_list))). -/
def Deck.init (cat : List Card) : Deck :=
  ⟨(List.range cat.length).map Int.ofNat⟩

/-- Deck.drawCard (lines 64-72): return None on an empty deck, otherwise
pop and return the front index. -/
def Deck.drawCard (d : Deck) : Option Int × Deck :=
  match d.card_nums with
  | [] => (none, d)
  | x :: xs => (some x, ⟨xs⟩)

/-- Deck.insertCard (lines 74-77): append the index to the bottom. -/
def Deck.insertCard (d : Deck) (card_index : Int) : Deck :=
  ⟨d.card_nums ++ [card_index]⟩

/-- Diviner (tarot_deck.py, class Diviner): hand and discard piles. -/
structure Diviner where
  hand : List Int
  discard : List Int
deriving DecidableEq, Repr

/-- Diviner.draw (tarot_deck.py lines 92-104).  The Python body pops the
deck, and only when the popped value is not None does it print the card
(card_list[i], which can raise IndexError before hand.append runs) and
append the index to the hand; the final statement is return
getCard(card_index) unconditionally, so an empty deck reaches
card_list[None] and raises TypeError with the hand untouched. -/
def Diviner.draw (cat : List Card) (dv : Diviner) (d : Deck) :
    Except PyError Card × Diviner × Deck :=
  match d.drawCard with
  | (none, d1) => (Except.error PyError.typeError, dv, d1)
  | (some i, d1) =>
    match pyGet cat i with
    | none => (Except.error PyError.indexError, dv, d1)
    | some c => (Except.ok c, ⟨dv.hand ++ [i], dv.discard⟩, d1)

/-- The search loop of Diviner.playCard (tarot_deck.py lines 128-132):
for card_index in hand, break on the first card whose lowered name equals
the lowered query or whose raw keyword list contains the lowered query;
the loop-else arm rewrites card_index to -1, so falling off the loop
leaves -1.  Looking up a card raises IndexError for an out-of-range hand
entry. -/
def playSearch (cat : List Card) (key : String) : List Int → Except PyError Int
  | [] => Except.ok (-1)
  | i :: rest =>
    match pyGet cat i with
    | none => Except.error PyError.indexError
    | some c =>
      if pyLower c.name == key || c.keywords.contains key then Except.ok i
      else playSearch cat key rest

/-- Diviner.playCard (tarot_deck.py lines 123-139).  With an empty hand
the loop never runs and the read of card_index raises NameError.  On a
match the index is removed from the hand and appended to the BACK of the
discard list; the function has no return statement, so it returns None
(modelled as Unit). -/
def Diviner.playCard (cat : List Card) (dv : Diviner) (card_name : String) :
    Except PyError Unit × Diviner :=
  if dv.hand.isEmpty then (Except.error PyError.nameError, dv)
  else
    match playSearch cat (pyLower card_name) dv.hand with
    | Except.error e => (Except.error e, dv)
    | Except.ok ci =>
      if ci = -1 then (Except.ok (), dv)
      else (Except.ok (), ⟨dv.hand.erase ci, dv.discard ++ [ci]⟩)

/-- Diviner.shuffleDeck (tarot_deck.py lines 141-156): insert every card
of hand ++ discard at the deck bottom, clear both piles, then shuffle the
deck.  random.shuffle is modelled by an explicit permutation-producing
function sh. -/
def Diviner.shuffleDeck (sh : List Int → List Int) (dv : Diviner) (d : Deck) :
    Diviner × Deck :=
  let player_cards := dv.hand ++ dv.discard
  let d1 := player_cards.foldl Deck.insertCard d
  (⟨[], []⟩, ⟨sh d1.card_nums⟩)

/-- Case-insensitive match of a lowered query against one card, following
the spec's match policy (name equality or keyword membership, both
case-folded). -/
def cardKeyMatch (text_lower : String) (c : Card) : Bool :=
  pyLower c.name == text_lower || c.keywords.any (fun k => pyLower k == text_lower)

/-- Scan of the catalog from position n, first match wins. -/
def findCardIndexAux (text_lower : String) : Nat → List Card → Int
  | _, [] => -1
  | n, c :: rest =>
    if cardKeyMatch text_lower c then Int.ofNat n
    else findCardIndexAux text_lower (n + 1) rest

/-- Modelled from the spec: findCardIndex is imported by fate_commands.py
from tarot_deck but is absent from src/tarot_deck.py.  Spec 4.1:
case-insensitive matching of the text against each card's name and
keyword set, returning the first matching catalog index, or not-found
(-1, the sentinel the callers in fate_commands.py compare against). -/
def findCardIndex (cat : List Card) (text : String) : Int :=
  findCardIndexAux (pyLower text) 0 cat

/-- The match policy exactly as the claim words it: the case-folded query
equals the case-folded card name or is a case-folded member of the card's
keyword set. -/
def specMatches (q : String) (c : Card) : Bool :=
  pyLower c.name == pyLower q || c.keywords.any (fun k => pyLower k == pyLower q)

/-- The match test Diviner.playCard actually performs on one card: only
the query is case-folded; the keyword list is searched for the lowered
query verbatim. -/
def codeHandMatches (q : String) (c : Card) : Bool :=
  pyLower c.name == pyLower q || c.keywords.contains (pyLower q)

/-- codeHandMatches lifted to a hand entry (an out-of-range entry matches
nothing). -/
def handMatches (cat : List Card) (q : String) (x : Int) : Bool :=
  match pyGet cat x with
  | some c => codeHandMatches q c
  | none => false

/-- The three pile names accepted by the restore command after its
argument validation (fate_commands.py line 169). -/
inductive Dest
  | deck
  | hand
  | discard
deriving DecidableEq, Repr

/-- The keyword loop of Fateweaver.restoreCard (fate_commands.py lines
174-181): card_ind starts at -1 and takes the first findCardIndex hit. -/
def findCardLoop (cat : List Card) : List String → Int
  | [] => -1
  | k :: rest =>
    let ci := findCardIndex cat k
    if ci = -1 then findCardLoop cat rest else ci

/-- The removal chain of Fateweaver.restoreCard (fate_commands.py lines
186-188): remove card_ind from the first of hand, discard, deck that
contains it (Python's in test and list.remove of the first occurrence);
remove nothing when no pile contains it. -/
def Fateweaver.removeFound (card_ind : Int) (dv : Diviner) (d : Deck) : Diviner × Deck :=
  if card_ind ∈ dv.hand then (⟨dv.hand.erase card_ind, dv.discard⟩, d)
  else if card_ind ∈ dv.discard then (⟨dv.hand, dv.discard.erase card_ind⟩, d)
  else if card_ind ∈ d.card_nums then (dv, ⟨d.card_nums.erase card_ind⟩)
  else (dv, d)

/-- The pile-moving part of Fateweaver.restoreCard (fate_commands.py
lines 186-192): the removal chain, then insertion into the destination
pile - appended to the back of the hand, or to the front of the discard
or deck. -/
def Fateweaver.restoreMove (card_ind : Int) (dest : Dest) (dv : Diviner) (d : Deck) :
    Diviner × Deck :=
  let removed : Diviner × Deck := Fateweaver.removeFound card_ind dv d
  match dest with
  | Dest.hand => (⟨removed.1.hand ++ [card_ind], removed.1.discard⟩, removed.2)
  | Dest.discard => (⟨removed.1.hand, card_ind :: removed.1.discard⟩, removed.2)
  | Dest.deck => (removed.1, ⟨card_ind :: removed.2.card_nums⟩)

/-- Fateweaver.restoreCard (fate_commands.py lines 161-195) after its
argument validation: find the card by the given keywords, raise
CommandError when no keyword matches, otherwise move the found index. -/
def Fateweaver.restoreCard (cat : List Card) (keys : List String) (dest : Dest)
    (dv : Diviner) (d : Deck) : Except PyError Unit × Diviner × Deck :=
  let ci := findCardLoop cat keys
  if ci = -1 then (Except.error PyError.commandError, dv, d)
  else (Except.ok (), Fateweaver.restoreMove ci dest dv d)

/-- MAX_DRAW (fate_commands.py line 8). -/
def MAX_DRAW : Int := 5

/-- The argument clamping of Fateweaver.drawCard (fate_commands.py lines
221-224): a missing argument or one below 1 becomes 1, one above MAX_DRAW
becomes MAX_DRAW. -/
def clampDraw (arg : Option Int) : Int :=
  match arg with
  | none => 1
  | some a => if a < 1 then 1 else if a > MAX_DRAW then MAX_DRAW else a

/-- The body of Fateweaver.drawCard's for-loop (fate_commands.py lines
226-233), instrumented with the number of player.draw() calls performed
(the last component).  An exception raised by a draw aborts the loop; the
code's own None check and CommandError raise are dead, because
Diviner.draw raises before it can return None. -/
def drawLoop (cat : List Card) : Nat → Diviner → Deck → Except PyError Unit × Diviner × Deck × Nat
  | 0, dv, d => (Except.ok (), dv, d, 0)
  | n + 1, dv, d =>
    match Diviner.draw cat dv d with
    | (Except.ok _, dv1, d1) =>
      let r := drawLoop cat n dv1 d1
      (r.1, r.2.1, r.2.2.1, r.2.2.2 + 1)
    | (Except.error e, dv1, d1) => (Except.error e, dv1, d1, 1)

/-- Fateweaver.drawCard (fate_commands.py lines 215-233): clamp the
argument, then run the draw loop that many times. -/
def Fateweaver.drawCard (cat : List Card) (arg : Option Int) (dv : Diviner) (d : Deck) :
    Except PyError Unit × Diviner × Deck × Nat :=
  drawLoop cat (clampDraw arg).toNat dv d

/-- One core operation on a player's state, as named by claim C1. -/
inductive Op
  | drawOp
  | playOp (key : String)
  | shuffleOp (sh : List Int → List Int)
  | restoreOp (keys : List String) (dest : Dest)

/-- A shuffle operation must use a genuine permutation (random.shuffle
permutes in place); the other operations carry no side condition. -/
def shuffleOk : Op → Prop
  | Op.shuffleOp sh => ∀ l : List Int, (sh l).Perm l
  | _ => True

/-- State transition of one operation (results and raised errors are
dropped; the post-state is kept exactly as the code leaves it). -/
def stepOp (cat : List Card) : Op → Diviner × Deck → Diviner × Deck
  | Op.drawOp, s => (Diviner.draw cat s.1 s.2).2
  | Op.playOp key, s => ((Diviner.playCard cat s.1 key).2, s.2)
  | Op.shuffleOp sh, s => Diviner.shuffleDeck sh s.1 s.2
  | Op.restoreOp keys dest, s => (Fateweaver.restoreCard cat keys dest s.1 s.2).2

/-- Run a sequence of core operations. -/
def runOps (cat : List Card) (ops : List Op) (s : Diviner × Deck) : Diviner × Deck :=
  ops.foldl (fun t op => stepOp cat op t) s

/-- The full catalog index set, as the list of all valid card indices. -/
def fullSet (cat : List Card) : List Int :=
  (List.range cat.length).map Int.ofNat

/-- The pile-exclusivity invariant: deck, hand and discard together hold
every catalog index exactly once. -/
def PileInv (cat : List Card) (dv : Diviner) (d : Deck) : Prop :=
  (d.card_nums ++ dv.hand ++ dv.discard).Perm (fullSet cat)

/-- A tiny concrete catalog, following the spec's own keyword-match
example. -/
def foolCard : Card :=
  ⟨0, "0", "The Fool", ["fool", "jester"], "new beginnings", "fool.png"⟩

/-- Second card of the concrete catalog. -/
def priestessCard : Card :=
  ⟨2, "II", "High Priestess", ["priestess"], "hidden knowledge", "priestess.png"⟩

/-- Two-card concrete catalog. -/
def cat2 : List Card := [foolCard, priestessCard]

/-- A card whose keyword list carries an uppercase letter. -/
def jesterCard : Card :=
  ⟨0, "0", "The Fool", ["Jester"], "new beginnings", "fool.png"⟩

/-- One-card catalog with an uppercase keyword. -/
def catJ : List Card := [jesterCard]

/-- C2: the claim (and the spec, and the caller's own comment in
fate_commands.py line 228) say an empty-deck draw returns the None
sentinel without raising.  The code instead reaches return
getCard(card_index) with card_index = None, i.e. card_list[None], which
raises TypeError; the hand (and everything else) is left unchanged. -/
theorem draw_empty_deck_raises (cat : List Card) (dv : Diviner) :
    Diviner.draw cat dv ⟨[]⟩ = (Except.error PyError.typeError, dv, ⟨[]⟩) := rfl

/-- C3: playing the card "fool" from hand [0] with discard [1] does move
the matched index 0 out of the hand, but appends it to the BACK of the
discard list (giving [1, 0], not the claimed front-insertion [0, 1]) and
returns Python None (modelled Unit) instead of the matched Card, since
Diviner.playCard has no return statement. -/
theorem playCard_returns_none_and_back_appends :
    Diviner.playCard cat2 ⟨[0], [1]⟩ "fool" = (Except.ok (), ⟨[], [1, 0]⟩) := rfl

/-- C4: with an empty hand the for-loop of Diviner.playCard never runs,
so the read of card_index after the loop raises NameError instead of
returning the claimed sentinel; the piles are nevertheless unchanged. -/
theorem playCard_empty_hand_raises (cat : List Card) (ds : List Int) (key : String) :
    Diviner.playCard cat ⟨[], ds⟩ key = (Except.error PyError.nameError, ⟨[], ds⟩) := rfl

/-- C5 counterexample: the card's keyword list is ["Jester"], and the
query "JESTER" is a case-folded member of it, so the claim demands a
match; but the hand search lowers only the query, finds no match
(sentinel -1) and playCard leaves the hand untouched. -/
theorem hand_search_not_case_insensitive :
    specMatches "JESTER" jesterCard = true ∧
    playSearch catJ (pyLower "JESTER") [0] = Except.ok (-1) ∧
    Diviner.playCard catJ ⟨[0], []⟩ "JESTER" = (Except.ok (), ⟨[0], []⟩) :=
  ⟨rfl, rfl, rfl⟩

/-- C6 counterexample: index 0 ("fool") is present in none of the three
piles, yet restoreCard is not a no-op: it inserts 0 into the requested
hand pile. -/
theorem restoreCard_absent_not_noop :
    Fateweaver.restoreCard cat2 ["fool"] Dest.hand ⟨[], []⟩ ⟨[]⟩ =
      (Except.ok (), ⟨[0], []⟩, ⟨[]⟩) := rfl

/-- C9 counterexample: the claim says every negative index fails with
OutOfRange, but Python list indexing accepts -1 and getCard returns the
last catalog card. -/
theorem getCard_negative_returns_card :
    getCard cat2 (-1) = Except.ok priestessCard := rfl

/-! ### Helper lemmas about the embedding -/

/-- Membership in the full catalog index set is exactly being a valid
catalog position. -/
theorem mem_fullSet {cat : List Card} {i : Int} :
    i ∈ fullSet cat ↔ 0 ≤ i ∧ i < (cat.length : Int) := by
  simp only [fullSet, List.mem_map, List.mem_range, Int.ofNat_eq_natCast]
  constructor
  · rintro ⟨k, hk, rfl⟩
    omega
  · intro h
    exact ⟨i.toNat, by omega, by omega⟩

/-- A valid catalog position never raises on lookup. -/
theorem pyGet_isSome {cat : List Card} {i : Int} (h0 : 0 ≤ i) (hl : i < (cat.length : Int)) :
    ∃ c, pyGet cat i = some c := by
  have ht : i.toNat < cat.length := by omega
  refine ⟨cat.get ⟨i.toNat, ht⟩, ?_⟩
  unfold pyGet
  rw [if_pos ⟨h0, hl⟩]
  exact List.get?_eq_get ht

/-- The full catalog index set has no duplicates. -/
theorem fullSet_nodup (cat : List Card) : (fullSet cat).Nodup :=
  (List.nodup_range cat.length).map (fun _ _ hab => Int.ofNat_inj.mp hab)

/-- Folding insertCard over a list appends it at the deck bottom. -/
theorem foldl_insertCard (l : List Int) :
    ∀ d : Deck, (l.foldl Deck.insertCard d).card_nums = d.card_nums ++ l := by
  induction l with
  | nil => intro d; simp
  | cons x xs ih =>
    intro d
    simp only [List.foldl_cons]
    rw [ih]
    simp [Deck.insertCard]

/-- A successful hand search yields the -1 sentinel or a hand member. -/
theorem playSearch_ok_mem {cat : List Card} {key : String} :
    ∀ {hand : List Int} {ci : Int},
      playSearch cat key hand = Except.ok ci → ci = -1 ∨ ci ∈ hand := by
  intro hand
  induction hand with
  | nil =>
    intro ci h
    simp only [playSearch, Except.ok.injEq] at h
    exact Or.inl h.symm
  | cons x xs ih =>
    intro ci h
    rw [playSearch] at h
    cases hpg : pyGet cat x with
    | none =>
      rw [hpg] at h
      exact absurd h (by simp)
    | some c =>
      rw [hpg] at h
      simp only at h
      split at h
      · simp only [Except.ok.injEq] at h
        exact Or.inr (h ▸ List.mem_cons_self x xs)
      · rcases ih h with h1 | h1
        · exact Or.inl h1
        · exact Or.inr (List.mem_cons_of_mem x h1)

/-- Over a hand of valid indices, the search loop never raises. -/
theorem playSearch_total {cat : List Card} {key : String} :
    ∀ {hand : List Int}, (∀ x ∈ hand, 0 ≤ x ∧ x < (cat.length : Int)) →
      ∃ ci, playSearch cat key hand = Except.ok ci := by
  intro hand
  induction hand with
  | nil => intro _; exact ⟨-1, rfl⟩
  | cons x xs ih =>
    intro hval
    obtain ⟨c, hc⟩ := pyGet_isSome (hval x (List.mem_cons_self x xs)).1
      (hval x (List.mem_cons_self x xs)).2
    by_cases hm : (pyLower c.name == key || c.keywords.contains key) = true
    · exact ⟨x, by simp only [playSearch, hc]; rw [if_pos hm]⟩
    · obtain ⟨ci, hci⟩ := ih (fun y hy => hval y (List.mem_cons_of_mem x hy))
      exact ⟨ci, by simp only [playSearch, hc]; rw [if_neg hm]; exact hci⟩

/-- First-match characterisation of the catalog scan: either no card
matches and the scan yields -1, or it yields the offset position of the
first matching card. -/
theorem findCardIndexAux_spec (t : String) :
    ∀ (cs : List Card) (n : Nat),
      (findCardIndexAux t n cs = -1 ∧ ∀ c ∈ cs, cardKeyMatch t c = false) ∨
      (∃ j, j < cs.length ∧ findCardIndexAux t n cs = Int.ofNat (n + j) ∧
        (∀ c, cs.get? j = some c → cardKeyMatch t c = true) ∧
        (∀ j2, j2 < j → ∀ c, cs.get? j2 = some c → cardKeyMatch t c = false)) := by
  intro cs
  induction cs with
  | nil =>
    intro n
    left
    exact ⟨rfl, by simp⟩
  | cons c rest ih =>
    intro n
    by_cases hm : cardKeyMatch t c = true
    · right
      refine ⟨0, by simp, ?_, ?_, ?_⟩
      · simp only [findCardIndexAux]
        rw [if_pos hm]
        simp
      · intro c2 hc2
        simp only [List.get?_cons_zero, Option.some.injEq] at hc2
        exact hc2 ▸ hm
      · intro j2 hj2
        omega
    · have hm2 : cardKeyMatch t c = false := by
        simpa using hm
      rcases ih (n + 1) with ⟨h1, h2⟩ | ⟨j, hj, he, hmt, hmf⟩
      · left
        refine ⟨?_, ?_⟩
        · simp only [findCardIndexAux]
          rw [if_neg hm]
          exact h1
        · intro c2 hc2
          rcases List.mem_cons.mp hc2 with rfl | hc2
          · exact hm2
          · exact h2 c2 hc2
      · right
        refine ⟨j + 1, by simpa using Nat.succ_lt_succ hj, ?_, ?_, ?_⟩
        · simp only [findCardIndexAux]
          rw [if_neg hm, he]
          congr 1
          omega
        · intro c2 hc2
          exact hmt c2 (by simpa using hc2)
        · intro j2 hj2 c2 hc2
          cases j2 with
          | zero =>
            simp only [List.get?_cons_zero, Option.some.injEq] at hc2
            exact hc2 ▸ hm2
          | succ j3 =>
            exact hmf j3 (by omega) c2 (by simpa using hc2)

/-- findCardIndex returns -1 or a valid catalog position. -/
theorem findCardIndex_range (cat : List Card) (text : String) :
    findCardIndex cat text = -1 ∨
      (0 ≤ findCardIndex cat text ∧ findCardIndex cat text < (cat.length : Int)) := by
  rcases findCardIndexAux_spec (pyLower text) cat 0 with ⟨h1, _⟩ | ⟨j, hj, he, _, _⟩
  · exact Or.inl h1
  · right
    rw [findCardIndex, he]
    simp only [Int.ofNat_eq_natCast]
    omega

/-- The restore command's keyword loop returns -1 or a valid catalog
position. -/
theorem findCardLoop_range (cat : List Card) :
    ∀ keys : List String, findCardLoop cat keys = -1 ∨
      (0 ≤ findCardLoop cat keys ∧ findCardLoop cat keys < (cat.length : Int)) := by
  intro keys
  induction keys with
  | nil => exact Or.inl rfl
  | cons k rest ih =>
    by_cases h : findCardIndex cat k = -1
    · simpa [findCardLoop, h] using ih
    · rcases findCardIndex_range cat k with h1 | h1
      · exact absurd h1 h
      · right
        simpa [findCardLoop, h] using h1

/-- Drawing preserves the pile-exclusivity invariant (also across the
raising outcomes, whose post-states are unchanged). -/
theorem pileInv_draw {cat : List Card} {dv : Diviner} {d : Deck} (h : PileInv cat dv d) :
    PileInv cat (Diviner.draw cat dv d).2.1 (Diviner.draw cat dv d).2.2 := by
  obtain ⟨hand, dc⟩ := dv
  obtain ⟨cards⟩ := d
  cases cards with
  | nil => simpa [Diviner.draw, Deck.drawCard] using h
  | cons x xs =>
    have hp : ((x :: xs) ++ hand ++ dc).Perm (fullSet cat) := h
    have hx : 0 ≤ x ∧ x < (cat.length : Int) :=
      mem_fullSet.mp (hp.mem_iff.mp (by simp))
    obtain ⟨c, hc⟩ := pyGet_isSome hx.1 hx.2
    show PileInv cat
      (Diviner.draw cat ⟨hand, dc⟩ ⟨x :: xs⟩).2.1 (Diviner.draw cat ⟨hand, dc⟩ ⟨x :: xs⟩).2.2
    simp only [Diviner.draw, Deck.drawCard, hc]
    show (xs ++ (hand ++ [x]) ++ dc).Perm (fullSet cat)
    refine List.Perm.trans ?_ hp
    refine List.perm_iff_count.mpr (fun a => ?_)
    simp only [List.count_append, List.count_cons, List.count_nil, beq_iff_eq]
    split_ifs <;> omega

/-- Playing a card preserves the pile-exclusivity invariant (also across
the raising outcomes, whose post-states are unchanged). -/
theorem pileInv_play {cat : List Card} {dv : Diviner} {d : Deck} (key : String)
    (h : PileInv cat dv d) : PileInv cat (Diviner.playCard cat dv key).2 d := by
  have hp : (d.card_nums ++ dv.hand ++ dv.discard).Perm (fullSet cat) := h
  by_cases hemp : dv.hand.isEmpty
  · simpa [Diviner.playCard, hemp] using h
  · have hval : ∀ x ∈ dv.hand, 0 ≤ x ∧ x < (cat.length : Int) := by
      intro x hx
      exact mem_fullSet.mp (hp.mem_iff.mp (by simp [hx]))
    obtain ⟨ci, hci⟩ := @playSearch_total cat (pyLower key) dv.hand hval
    by_cases hneg : ci = -1
    · simpa [Diviner.playCard, hemp, hci, hneg] using h
    · have hmem : ci ∈ dv.hand := by
        rcases playSearch_ok_mem hci with h1 | h1
        · exact absurd h1 hneg
        · exact h1
      have hpost : (Diviner.playCard cat dv key).2 = ⟨dv.hand.erase ci, dv.discard ++ [ci]⟩ := by
        simp [Diviner.playCard, hemp, hci, hneg]
      rw [hpost]
      show (d.card_nums ++ dv.hand.erase ci ++ (dv.discard ++ [ci])).Perm (fullSet cat)
      refine List.Perm.trans ?_ hp
      have h1 : dv.hand.Perm (ci :: dv.hand.erase ci) := List.perm_cons_erase hmem
      have h3 : (dv.hand ++ dv.discard).Perm (ci :: (dv.hand.erase ci ++ dv.discard)) := by
        simpa [List.cons_append] using h1.append_right dv.discard
      have h2 : (dv.hand.erase ci ++ (dv.discard ++ [ci])).Perm (dv.hand ++ dv.discard) := by
        have e1 : dv.hand.erase ci ++ (dv.discard ++ [ci])
            = (dv.hand.erase ci ++ dv.discard) ++ [ci] := by
          simp [List.append_assoc]
        rw [e1]
        refine List.perm_append_comm.trans ?_
        simpa using h3.symm
      have e0 : d.card_nums ++ dv.hand.erase ci ++ (dv.discard ++ [ci])
          = d.card_nums ++ (dv.hand.erase ci ++ (dv.discard ++ [ci])) := by
        simp [List.append_assoc]
      have e2 : d.card_nums ++ dv.hand ++ dv.discard
          = d.card_nums ++ (dv.hand ++ dv.discard) := by
        simp [List.append_assoc]
      rw [e0]
      refine List.Perm.trans (List.Perm.append_left d.card_nums h2) ?_
      rw [e2]

/-- Reshuffling with a genuine permutation preserves the invariant. -/
theorem pileInv_shuffle {cat : List Card} {dv : Diviner} {d : Deck} {sh : List Int → List Int}
    (hsh : ∀ l : List Int, (sh l).Perm l) (h : PileInv cat dv d) :
    PileInv cat (Diviner.shuffleDeck sh dv d).1 (Diviner.shuffleDeck sh dv d).2 := by
  have hp : (d.card_nums ++ dv.hand ++ dv.discard).Perm (fullSet cat) := h
  show (((Diviner.shuffleDeck sh dv d).2.card_nums ++ (Diviner.shuffleDeck sh dv d).1.hand)
      ++ (Diviner.shuffleDeck sh dv d).1.discard).Perm (fullSet cat)
  simp only [Diviner.shuffleDeck, foldl_insertCard, List.append_nil]
  refine (hsh _).trans ?_
  simpa [List.append_assoc] using hp

/-- The removal chain takes exactly one copy of a present index out of
the combined piles. -/
theorem removeFound_perm {ci : Int} {dv : Diviner} {d : Deck}
    (hmem : ci ∈ d.card_nums ++ dv.hand ++ dv.discard) :
    (d.card_nums ++ dv.hand ++ dv.discard).Perm
      (ci :: ((Fateweaver.removeFound ci dv d).2.card_nums ++
        (Fateweaver.removeFound ci dv d).1.hand ++ (Fateweaver.removeFound ci dv d).1.discard)) := by
  by_cases h1 : ci ∈ dv.hand
  · simp only [Fateweaver.removeFound, if_pos h1]
    have hh : dv.hand.Perm (ci :: dv.hand.erase ci) := List.perm_cons_erase h1
    have step : (d.card_nums ++ dv.hand ++ dv.discard).Perm
        (d.card_nums ++ (ci :: dv.hand.erase ci) ++ dv.discard) :=
      ((hh.append_left d.card_nums).append_right dv.discard)
    refine step.trans ?_
    have e1 : d.card_nums ++ (ci :: dv.hand.erase ci) ++ dv.discard
        = d.card_nums ++ ci :: (dv.hand.erase ci ++ dv.discard) := by
      simp [List.append_assoc]
    rw [e1]
    refine List.perm_middle.trans ?_
    simp [List.append_assoc]
  · by_cases h2 : ci ∈ dv.discard
    · simp only [Fateweaver.removeFound, if_neg h1, if_pos h2]
      have hh : dv.discard.Perm (ci :: dv.discard.erase ci) := List.perm_cons_erase h2
      refine (hh.append_left (d.card_nums ++ dv.hand)).trans ?_
      have e1 : d.card_nums ++ dv.hand ++ (ci :: dv.discard.erase ci)
          = (d.card_nums ++ dv.hand) ++ ci :: dv.discard.erase ci := by
        simp [List.append_assoc]
      rw [e1]
      refine List.perm_middle.trans ?_
      simp [List.append_assoc]
    · by_cases h3 : ci ∈ d.card_nums
      · simp only [Fateweaver.removeFound, if_neg h1, if_neg h2, if_pos h3]
        have hh : d.card_nums.Perm (ci :: d.card_nums.erase ci) := List.perm_cons_erase h3
        refine ((hh.append_right dv.hand).append_right dv.discard).trans ?_
        simp [List.append_assoc]
      · exfalso
        rcases List.mem_append.mp hmem with hin | hin
        · rcases List.mem_append.mp hin with hin2 | hin2
          · exact h3 hin2
          · exact h1 hin2
        · exact h2 hin

/-- The insertion stage puts the moved index back, so the combined piles
after restoreMove are a permutation of the index consed onto the combined
piles after removal. -/
theorem restoreMove_perm (ci : Int) (dest : Dest) (dv : Diviner) (d : Deck) :
    ((Fateweaver.restoreMove ci dest dv d).2.card_nums ++
      (Fateweaver.restoreMove ci dest dv d).1.hand ++
      (Fateweaver.restoreMove ci dest dv d).1.discard).Perm
    (ci :: ((Fateweaver.removeFound ci dv d).2.card_nums ++
      (Fateweaver.removeFound ci dv d).1.hand ++ (Fateweaver.removeFound ci dv d).1.discard)) := by
  rcases hrm : Fateweaver.removeFound ci dv d with ⟨⟨h1, c1⟩, a1⟩
  simp only [Fateweaver.restoreMove, hrm]
  cases dest with
  | hand =>
    show ((a1.card_nums ++ (h1 ++ [ci])) ++ c1).Perm (ci :: (a1.card_nums ++ h1 ++ c1))
    have e1 : (a1.card_nums ++ (h1 ++ [ci])) ++ c1 = (a1.card_nums ++ h1) ++ ci :: c1 := by
      simp [List.append_assoc]
    rw [e1]
    refine List.perm_middle.trans ?_
    simp [List.append_assoc]
  | discard =>
    show ((a1.card_nums ++ h1) ++ ci :: c1).Perm (ci :: (a1.card_nums ++ h1 ++ c1))
    refine List.perm_middle.trans ?_
    simp [List.append_assoc]
  | deck =>
    show (((ci :: a1.card_nums) ++ h1) ++ c1).Perm (ci :: (a1.card_nums ++ h1 ++ c1))
    simp [List.append_assoc]

/-- The restore command preserves the pile-exclusivity invariant: a
failed lookup leaves the state alone, and a successful one moves exactly
one present index between piles. -/
theorem pileInv_restore {cat : List Card} (keys : List String) (dest : Dest)
    {dv : Diviner} {d : Deck} (h : PileInv cat dv d) :
    PileInv cat (Fateweaver.restoreCard cat keys dest dv d).2.1
      (Fateweaver.restoreCard cat keys dest dv d).2.2 := by
  have hp : (d.card_nums ++ dv.hand ++ dv.discard).Perm (fullSet cat) := h
  rcases findCardLoop_range cat keys with hneg | hpos
  · simpa [Fateweaver.restoreCard, hneg] using h
  · have hne : findCardLoop cat keys ≠ -1 := by omega
    have hmem : findCardLoop cat keys ∈ d.card_nums ++ dv.hand ++ dv.discard :=
      hp.mem_iff.mpr (mem_fullSet.mpr hpos)
    have hpost : (Fateweaver.restoreCard cat keys dest dv d).2 =
        Fateweaver.restoreMove (findCardLoop cat keys) dest dv d := by
      simp [Fateweaver.restoreCard, hne]
    show PileInv cat (Fateweaver.restoreCard cat keys dest dv d).2.1
      (Fateweaver.restoreCard cat keys dest dv d).2.2
    rw [hpost]
    show ((Fateweaver.restoreMove (findCardLoop cat keys) dest dv d).2.card_nums ++
      (Fateweaver.restoreMove (findCardLoop cat keys) dest dv d).1.hand ++
      (Fateweaver.restoreMove (findCardLoop cat keys) dest dv d).1.discard).Perm (fullSet cat)
    refine (restoreMove_perm (findCardLoop cat keys) dest dv d).trans ?_
    refine ((removeFound_perm hmem).symm).trans hp

/-- Every single core operation preserves the invariant. -/
theorem pileInv_step {cat : List Card} (op : Op) {s : Diviner × Deck}
    (hop : shuffleOk op) (h : PileInv cat s.1 s.2) :
    PileInv cat (stepOp cat op s).1 (stepOp cat op s).2 := by
  cases op with
  | drawOp => exact pileInv_draw h
  | playOp key => exact pileInv_play key h
  | shuffleOp sh => exact pileInv_shuffle hop h
  | restoreOp keys dest => exact pileInv_restore keys dest h

/-- Any sequence of core operations preserves the invariant. -/
theorem pileInv_runOps {cat : List Card} :
    ∀ (ops : List Op) (s : Diviner × Deck), (∀ op ∈ ops, shuffleOk op) →
      PileInv cat s.1 s.2 → PileInv cat (runOps cat ops s).1 (runOps cat ops s).2 := by
  intro ops
  induction ops with
  | nil =>
    intro s _ h
    simpa [runOps] using h
  | cons op rest ih =>
    intro s hsh h
    have h1 := pileInv_step op (hsh op (List.mem_cons_self op rest)) h
    have h2 := ih (stepOp cat op s) (fun o ho => hsh o (List.mem_cons_of_mem op ho)) h1
    simpa [runOps, List.foldl_cons] using h2

/-- C1: for every player, after any sequence of the core operations
(draw, playCard, shuffleDeck with a genuine permutation, and the admin
move-card override), starting from a state whose piles partition the
catalog, the multiset union of deck, hand and discard still equals the
full catalog index set: the combined piles are duplicate-free (no index
in more than one pile, nor twice in one) and hold exactly the valid
catalog indices (none lost). -/
theorem core_ops_invariant (cat : List Card) (ops : List Op) (dv : Diviner) (d : Deck)
    (hsh : ∀ op ∈ ops, shuffleOk op) (hInv : PileInv cat dv d) :
    PileInv cat (runOps cat ops (dv, d)).1 (runOps cat ops (dv, d)).2 ∧
    ((runOps cat ops (dv, d)).2.card_nums ++ (runOps cat ops (dv, d)).1.hand ++
      (runOps cat ops (dv, d)).1.discard).Nodup ∧
    (∀ i : Int, (i ∈ (runOps cat ops (dv, d)).2.card_nums ++ (runOps cat ops (dv, d)).1.hand ++
      (runOps cat ops (dv, d)).1.discard) ↔ (0 ≤ i ∧ i < (cat.length : Int))) := by
  have hrun : PileInv cat (runOps cat ops (dv, d)).1 (runOps cat ops (dv, d)).2 :=
    pileInv_runOps ops (dv, d) hsh hInv
  have hperm : ((runOps cat ops (dv, d)).2.card_nums ++ (runOps cat ops (dv, d)).1.hand ++
      (runOps cat ops (dv, d)).1.discard).Perm (fullSet cat) := hrun
  refine ⟨hrun, ?_, ?_⟩
  · exact hperm.nodup_iff.mpr (fullSet_nodup cat)
  · intro i
    rw [hperm.mem_iff]
    exact mem_fullSet

/-- Witness for C1: a concrete four-operation run over the two-card
catalog, starting from the freshly built deck. -/
theorem core_ops_invariant_witness :
    PileInv cat2 (runOps cat2 [Op.drawOp, Op.playOp "fool", Op.shuffleOp id,
        Op.restoreOp ["priestess"] Dest.discard] (⟨[], []⟩, ⟨[0, 1]⟩)).1
      (runOps cat2 [Op.drawOp, Op.playOp "fool", Op.shuffleOp id,
        Op.restoreOp ["priestess"] Dest.discard] (⟨[], []⟩, ⟨[0, 1]⟩)).2 ∧
    ((runOps cat2 [Op.drawOp, Op.playOp "fool", Op.shuffleOp id,
        Op.restoreOp ["priestess"] Dest.discard] (⟨[], []⟩, ⟨[0, 1]⟩)).2.card_nums ++
      (runOps cat2 [Op.drawOp, Op.playOp "fool", Op.shuffleOp id,
        Op.restoreOp ["priestess"] Dest.discard] (⟨[], []⟩, ⟨[0, 1]⟩)).1.hand ++
      (runOps cat2 [Op.drawOp, Op.playOp "fool", Op.shuffleOp id,
        Op.restoreOp ["priestess"] Dest.discard] (⟨[], []⟩, ⟨[0, 1]⟩)).1.discard).Nodup ∧
    (∀ i : Int, (i ∈ (runOps cat2 [Op.drawOp, Op.playOp "fool", Op.shuffleOp id,
        Op.restoreOp ["priestess"] Dest.discard] (⟨[], []⟩, ⟨[0, 1]⟩)).2.card_nums ++
      (runOps cat2 [Op.drawOp, Op.playOp "fool", Op.shuffleOp id,
        Op.restoreOp ["priestess"] Dest.discard] (⟨[], []⟩, ⟨[0, 1]⟩)).1.hand ++
      (runOps cat2 [Op.drawOp, Op.playOp "fool", Op.shuffleOp id,
        Op.restoreOp ["priestess"] Dest.discard] (⟨[], []⟩, ⟨[0, 1]⟩)).1.discard) ↔
      (0 ≤ i ∧ i < (cat2.length : Int))) :=
  core_ops_invariant cat2 [Op.drawOp, Op.playOp "fool", Op.shuffleOp id,
      Op.restoreOp ["priestess"] Dest.discard] ⟨[], []⟩ ⟨[0, 1]⟩
    (by
      intro op hop
      simp only [List.mem_cons, List.not_mem_nil, or_false] at hop
      rcases hop with rfl | rfl | rfl | rfl
      · trivial
      · trivial
      · exact fun l => List.Perm.refl l
      · trivial)
    (by
      show ([0, 1] ++ ([] : List Int) ++ []).Perm (fullSet cat2)
      decide)

/-- C7: starting from a state whose piles partition the catalog, one
shuffleDeck empties hand and discard and the deck afterwards holds
exactly the catalog indices; an immediately repeated shuffleDeck again
leaves hand and discard empty and permutes but does not change the
deck's contents. -/
theorem shuffle_reset_idempotent (cat : List Card) (sh : List Int → List Int)
    (dv : Diviner) (d : Deck) (hsh : ∀ l : List Int, (sh l).Perm l)
    (hInv : PileInv cat dv d) :
    (Diviner.shuffleDeck sh dv d).1.hand = [] ∧
    (Diviner.shuffleDeck sh dv d).1.discard = [] ∧
    (∀ i : Int, (i ∈ (Diviner.shuffleDeck sh dv d).2.card_nums) ↔
      (0 ≤ i ∧ i < (cat.length : Int))) ∧
    (Diviner.shuffleDeck sh (Diviner.shuffleDeck sh dv d).1
      (Diviner.shuffleDeck sh dv d).2).1.hand = [] ∧
    (Diviner.shuffleDeck sh (Diviner.shuffleDeck sh dv d).1
      (Diviner.shuffleDeck sh dv d).2).1.discard = [] ∧
    (Diviner.shuffleDeck sh (Diviner.shuffleDeck sh dv d).1
      (Diviner.shuffleDeck sh dv d).2).2.card_nums.Perm
      (Diviner.shuffleDeck sh dv d).2.card_nums := by
  have h1 : PileInv cat (Diviner.shuffleDeck sh dv d).1 (Diviner.shuffleDeck sh dv d).2 :=
    pileInv_shuffle hsh hInv
  refine ⟨rfl, rfl, ?_, rfl, rfl, ?_⟩
  · intro i
    have hp : ((Diviner.shuffleDeck sh dv d).2.card_nums ++ ([] : List Int) ++ []).Perm
        (fullSet cat) := h1
    rw [List.append_nil, List.append_nil] at hp
    rw [hp.mem_iff]
    exact mem_fullSet
  · simpa [Diviner.shuffleDeck, foldl_insertCard] using
      hsh ((Diviner.shuffleDeck sh dv d).2.card_nums)

/-- Witness for C7 at a concrete partitioned state with the identity
permutation. -/
theorem shuffle_reset_idempotent_witness :
    (Diviner.shuffleDeck id (⟨[0], [1]⟩ : Diviner) (⟨[]⟩ : Deck)).1.hand = [] ∧
    (Diviner.shuffleDeck id (⟨[0], [1]⟩ : Diviner) (⟨[]⟩ : Deck)).1.discard = [] ∧
    (∀ i : Int, (i ∈ (Diviner.shuffleDeck id (⟨[0], [1]⟩ : Diviner) (⟨[]⟩ : Deck)).2.card_nums) ↔
      (0 ≤ i ∧ i < (cat2.length : Int))) ∧
    (Diviner.shuffleDeck id (Diviner.shuffleDeck id (⟨[0], [1]⟩ : Diviner) (⟨[]⟩ : Deck)).1
      (Diviner.shuffleDeck id (⟨[0], [1]⟩ : Diviner) (⟨[]⟩ : Deck)).2).1.hand = [] ∧
    (Diviner.shuffleDeck id (Diviner.shuffleDeck id (⟨[0], [1]⟩ : Diviner) (⟨[]⟩ : Deck)).1
      (Diviner.shuffleDeck id (⟨[0], [1]⟩ : Diviner) (⟨[]⟩ : Deck)).2).1.discard = [] ∧
    (Diviner.shuffleDeck id (Diviner.shuffleDeck id (⟨[0], [1]⟩ : Diviner) (⟨[]⟩ : Deck)).1
      (Diviner.shuffleDeck id (⟨[0], [1]⟩ : Diviner) (⟨[]⟩ : Deck)).2).2.card_nums.Perm
      (Diviner.shuffleDeck id (⟨[0], [1]⟩ : Diviner) (⟨[]⟩ : Deck)).2.card_nums :=
  shuffle_reset_idempotent cat2 id ⟨[0], [1]⟩ ⟨[]⟩ (fun l => List.Perm.refl l)
    (by
      show (([] : List Int) ++ [0] ++ [1]).Perm (fullSet cat2)
      decide)

/-- When the deck can serve all m iterations, the loop performs exactly
m draw attempts. -/
theorem drawLoop_success (cat : List Card) :
    ∀ (m : Nat) (dv : Diviner) (d : Deck), m ≤ d.card_nums.length →
      (∀ i ∈ d.card_nums, 0 ≤ i ∧ i < (cat.length : Int)) →
      (drawLoop cat m dv d).2.2.2 = m := by
  intro m
  induction m with
  | zero => intro dv d _ _; rfl
  | succ k ih =>
    intro dv d hlen hval
    obtain ⟨cards⟩ := d
    cases cards with
    | nil => simp at hlen
    | cons x xs =>
      obtain ⟨c, hc⟩ := pyGet_isSome (hval x (List.mem_cons_self x xs)).1
        (hval x (List.mem_cons_self x xs)).2
      have hrec := ih ⟨dv.hand ++ [x], dv.discard⟩ ⟨xs⟩ (by simpa using hlen)
        (fun i hi => hval i (List.mem_cons_of_mem x hi))
      simp only [drawLoop, Diviner.draw, Deck.drawCard, hc]
      simp [hrec]

/-- When the loop bound exceeds the deck size, every deck card is drawn
into the hand in order, the next attempt raises, and the loop stops after
deck-size + 1 attempts with the deck empty. -/
theorem drawLoop_exhaust (cat : List Card) :
    ∀ (cards : List Int) (m : Nat) (dv : Diviner), cards.length < m →
      (∀ i ∈ cards, 0 ≤ i ∧ i < (cat.length : Int)) →
      drawLoop cat m dv ⟨cards⟩ =
        (Except.error PyError.typeError, ⟨dv.hand ++ cards, dv.discard⟩, ⟨[]⟩,
          cards.length + 1) := by
  intro cards
  induction cards with
  | nil =>
    intro m dv hm _
    cases m with
    | zero => simp at hm
    | succ k =>
      simp [drawLoop, Diviner.draw, Deck.drawCard]
  | cons x xs ih =>
    intro m dv hm hval
    cases m with
    | zero => simp at hm
    | succ k =>
      obtain ⟨c, hc⟩ := pyGet_isSome (hval x (List.mem_cons_self x xs)).1
        (hval x (List.mem_cons_self x xs)).2
      have hrec := ih k ⟨dv.hand ++ [x], dv.discard⟩ (by simpa using hm)
        (fun i hi => hval i (List.mem_cons_of_mem x hi))
      simp only [drawLoop, Diviner.draw, Deck.drawCard, hc, hrec]
      simp [List.append_assoc]

/-- C8: the draw command's count is the request clamped into [1, 5]
inclusive: below 1 it behaves as draw(1), above 5 as draw(5), an
in-range request is used as given, and when the deck can serve all the
clamped attempts exactly that many draw attempts are performed. -/
theorem drawCard_clamps (cat : List Card) (n : Int) (dv : Diviner) (d : Deck) :
    clampDraw (some n) = max 1 (min n 5) ∧
    (n < 1 → Fateweaver.drawCard cat (some n) dv d = Fateweaver.drawCard cat (some 1) dv d) ∧
    (n > 5 → Fateweaver.drawCard cat (some n) dv d = Fateweaver.drawCard cat (some 5) dv d) ∧
    (1 ≤ n → n ≤ 5 → clampDraw (some n) = n) ∧
    ((clampDraw (some n)).toNat ≤ d.card_nums.length →
      (∀ i ∈ d.card_nums, 0 ≤ i ∧ i < (cat.length : Int)) →
      (Fateweaver.drawCard cat (some n) dv d).2.2.2 = (clampDraw (some n)).toNat) := by
  refine ⟨?_, ?_, ?_, ?_, ?_⟩
  · simp only [clampDraw, MAX_DRAW]
    split_ifs <;> omega
  · intro h1
    unfold Fateweaver.drawCard
    rw [show clampDraw (some n) = clampDraw (some 1) by
      simp only [clampDraw, MAX_DRAW]; split_ifs <;> omega]
  · intro h5
    unfold Fateweaver.drawCard
    rw [show clampDraw (some n) = clampDraw (some 5) by
      simp only [clampDraw, MAX_DRAW]; split_ifs <;> omega]
  · intro hlo hhi
    simp only [clampDraw, MAX_DRAW]
    split_ifs <;> omega
  · intro hlen hval
    exact drawLoop_success cat (clampDraw (some n)).toNat dv d hlen hval

/-- Witness for C8: clamp of 99 is 5, draw(0) is draw(1), and a one-card
request over a two-card deck performs one attempt. -/
theorem drawCard_clamps_witness :
    clampDraw (some 99) = max 1 (min 99 5) ∧
    Fateweaver.drawCard cat2 (some 0) ⟨[], []⟩ ⟨[0, 1]⟩ =
      Fateweaver.drawCard cat2 (some 1) ⟨[], []⟩ ⟨[0, 1]⟩ ∧
    (Fateweaver.drawCard cat2 (some 1) ⟨[], []⟩ ⟨[0, 1]⟩).2.2.2 = (clampDraw (some 1)).toNat :=
  ⟨(drawCard_clamps cat2 99 ⟨[], []⟩ ⟨[0, 1]⟩).1,
   (drawCard_clamps cat2 0 ⟨[], []⟩ ⟨[0, 1]⟩).2.1 (by norm_num),
   (drawCard_clamps cat2 1 ⟨[], []⟩ ⟨[0, 1]⟩).2.2.2.2 (by decide) (by decide)⟩

/-- C10: with the clamped count n exceeding the k cards in the deck, the
first k iterations move the deck's then-front card into the hand in
order, the (k+1)-th attempt fails, and the k drawn cards stay in the
hand with the deck left empty - partial progress is kept, with no
rollback. -/
theorem drawCard_partial_progress (cat : List Card) (n : Int) (dv : Diviner) (d : Deck)
    (hk : d.card_nums.length < (clampDraw (some n)).toNat)
    (hval : ∀ i ∈ d.card_nums, 0 ≤ i ∧ i < (cat.length : Int)) :
    Fateweaver.drawCard cat (some n) dv d =
      (Except.error PyError.typeError, ⟨dv.hand ++ d.card_nums, dv.discard⟩, ⟨[]⟩,
        d.card_nums.length + 1) := by
  obtain ⟨cards⟩ := d
  exact drawLoop_exhaust cat cards (clampDraw (some n)).toNat dv hk hval

/-- Witness for C10: requesting 99 over the fresh two-card deck draws
both cards and fails on the third attempt, keeping the drawn cards. -/
theorem drawCard_partial_progress_witness :
    Fateweaver.drawCard cat2 (some 99) ⟨[], []⟩ ⟨[0, 1]⟩ =
      (Except.error PyError.typeError, ⟨[0, 1], []⟩, ⟨[]⟩, 3) :=
  drawCard_partial_progress cat2 99 ⟨[], []⟩ ⟨[0, 1]⟩ (by decide) (by decide)

/-- The hand search loop returns exactly the first hand entry accepted
by the code's own per-card match test (List.find?), with the -1 sentinel
when none is, provided every hand entry is a real card. -/
theorem playSearch_eq_find {cat : List Card} {q : String} :
    ∀ {hand : List Int}, (∀ x ∈ hand, (pyGet cat x).isSome) →
      playSearch cat (pyLower q) hand =
        Except.ok ((hand.find? (fun x => handMatches cat q x)).getD (-1)) := by
  intro hand
  induction hand with
  | nil => intro _; rfl
  | cons x xs ih =>
    intro hval
    obtain ⟨c, hc⟩ := Option.isSome_iff_exists.mp (hval x (List.mem_cons_self x xs))
    by_cases hm : codeHandMatches q c = true
    · have hfm : handMatches cat q x = true := by
        simp [handMatches, hc, hm]
      have hm2 : (pyLower c.name == pyLower q || c.keywords.contains (pyLower q)) = true := hm
      simp only [playSearch, hc]
      rw [if_pos hm2, List.find?_cons_of_pos _ hfm]
      rfl
    · have hfm : handMatches cat q x = false := by
        simp only [handMatches, hc]
        simpa using hm
      have hrec := ih (fun y hy => hval y (List.mem_cons_of_mem x hy))
      have hm2 : ¬((pyLower c.name == pyLower q || c.keywords.contains (pyLower q)) = true) := hm
      simp only [playSearch, hc]
      rw [if_neg hm2, List.find?_cons_of_neg _ (by simp [hfm]), hrec]

/-- C5 (amended): the catalog-wide findCardIndex (spec-modelled, absent
from src) is case-insensitive on both sides: it yields -1 exactly when
no card matches the case-folded policy, and otherwise the position of
the first matching card in catalog order.  The hand-scoped search of
playCard lowers only the query: it returns the first hand entry whose
lowered name equals the lowered query or whose raw keyword list contains
the lowered query verbatim, and the -1 sentinel when no hand entry
does. -/
theorem keyword_lookup_spec (cat : List Card) (q : String) :
    (findCardIndex cat q = -1 ↔ ∀ c ∈ cat, specMatches q c = false) ∧
    (∀ j : Nat, findCardIndex cat q = Int.ofNat j →
      j < cat.length ∧ (∀ c, cat.get? j = some c → specMatches q c = true) ∧
      (∀ j2 : Nat, j2 < j → ∀ c, cat.get? j2 = some c → specMatches q c = false)) ∧
    (∀ hand : List Int, (∀ x ∈ hand, (pyGet cat x).isSome) →
      playSearch cat (pyLower q) hand =
        Except.ok ((hand.find? (fun x => handMatches cat q x)).getD (-1))) := by
  refine ⟨?_, ?_, fun hand hval => playSearch_eq_find hval⟩
  · rcases findCardIndexAux_spec (pyLower q) cat 0 with ⟨h1, h2⟩ | ⟨j, hj, he, hmt, hmf⟩
    · constructor
      · intro _ c hc
        exact h2 c hc
      · intro _
        exact h1
    · have hfi : findCardIndex cat q = Int.ofNat (0 + j) := he
      constructor
      · intro hcontra
        rw [hcontra] at hfi
        exfalso
        simp only [Int.ofNat_eq_natCast] at hfi
        omega
      · intro hall
        exfalso
        have hcget : cat.get? j = some (cat.get ⟨j, hj⟩) := List.get?_eq_get hj
        have hmem : cat.get ⟨j, hj⟩ ∈ cat := List.get_mem cat j hj
        have ht := hmt (cat.get ⟨j, hj⟩) hcget
        have hf : specMatches q (cat.get ⟨j, hj⟩) = false := hall _ hmem
        rw [show cardKeyMatch (pyLower q) (cat.get ⟨j, hj⟩)
          = specMatches q (cat.get ⟨j, hj⟩) from rfl] at ht
        rw [ht] at hf
        cases hf
  · intro j hj2
    rcases findCardIndexAux_spec (pyLower q) cat 0 with ⟨h1, _⟩ | ⟨j0, hj0, he, hmt, hmf⟩
    · exfalso
      have hfi : Int.ofNat j = -1 := by
        rw [← hj2]
        exact h1
      simp only [Int.ofNat_eq_natCast] at hfi
      omega
    · have hfi : Int.ofNat j = Int.ofNat (0 + j0) := by
        rw [← hj2]
        exact he
      have hjj : j = j0 := by
        simp only [Int.ofNat_eq_natCast] at hfi
        omega
      subst hjj
      exact ⟨hj0, fun c hc => hmt c hc, fun j2 hlt c hc => hmf j2 hlt c hc⟩

/-- Witness for C5's amended statement: over the two-card catalog the
query PRIESTESS finds position 1, discharging the positional part's
hypothesis there. -/
theorem keyword_lookup_spec_witness :
    (1 : Nat) < cat2.length ∧
    (∀ c, cat2.get? 1 = some c → specMatches "PRIESTESS" c = true) ∧
    (∀ j2 : Nat, j2 < 1 → ∀ c, cat2.get? j2 = some c → specMatches "PRIESTESS" c = false) :=
  (keyword_lookup_spec cat2 "PRIESTESS").2.1 1 (by decide)

/-- C6 (amended): moving a card index that is in none of the player's
three piles is not a no-op: it raises no error and removes nothing, but
still inserts the index into the requested pile (appended to the back of
the hand, or to the front of the discard or deck), leaving the other two
piles unchanged. -/
theorem restoreMove_absent (ci : Int) (dest : Dest) (dv : Diviner) (d : Deck)
    (h1 : ci ∉ dv.hand) (h2 : ci ∉ dv.discard) (h3 : ci ∉ d.card_nums) :
    Fateweaver.restoreMove ci dest dv d =
      (match dest with
        | Dest.hand => (⟨dv.hand ++ [ci], dv.discard⟩, d)
        | Dest.discard => (⟨dv.hand, ci :: dv.discard⟩, d)
        | Dest.deck => (dv, ⟨ci :: d.card_nums⟩)) := by
  have hrm : Fateweaver.removeFound ci dv d = (dv, d) := by
    simp [Fateweaver.removeFound, h1, h2, h3]
  cases dest <;> simp [Fateweaver.restoreMove, hrm]

/-- Witness for C6's amended statement at a concrete state where the
index is absent from all piles. -/
theorem restoreMove_absent_witness :
    Fateweaver.restoreMove 1 Dest.deck ⟨[0], []⟩ ⟨[]⟩ = (⟨[0], []⟩, ⟨[1]⟩) :=
  restoreMove_absent 1 Dest.deck ⟨[0], []⟩ ⟨[]⟩ (by decide) (by decide) (by decide)

/-- C9 (amended): getCard returns the card stored at position i for
0 ≤ i < n, returns the card stored at position n + i for -n ≤ i < 0
(Python's negative indexing), and fails with IndexError exactly for
i < -n or i ≥ n; it never returns a card outside [-n, n). -/
theorem getCard_spec (cat : List Card) :
    (∀ i : Int, 0 ≤ i → i < (cat.length : Int) →
      ∃ c, cat.get? i.toNat = some c ∧ getCard cat i = Except.ok c) ∧
    (∀ i : Int, -(cat.length : Int) ≤ i → i < 0 →
      ∃ c, cat.get? (i + (cat.length : Int)).toNat = some c ∧ getCard cat i = Except.ok c) ∧
    (∀ i : Int, (i < -(cat.length : Int) ∨ (cat.length : Int) ≤ i) →
      getCard cat i = Except.error PyError.indexError) := by
  refine ⟨?_, ?_, ?_⟩
  · intro i h0 hl
    obtain ⟨c, hc⟩ := pyGet_isSome h0 hl
    have hb : pyGet cat i = cat.get? i.toNat := by
      unfold pyGet
      rw [if_pos ⟨h0, hl⟩]
    refine ⟨c, ?_, ?_⟩
    · rw [← hb]
      exact hc
    · simp [getCard, hc]
  · intro i hn h0
    have hti : (i + (cat.length : Int)).toNat < cat.length := by omega
    have hpg : pyGet cat i = cat.get? (i + (cat.length : Int)).toNat := by
      unfold pyGet
      rw [if_neg (by omega), if_pos ⟨hn, h0⟩]
    refine ⟨cat.get ⟨(i + (cat.length : Int)).toNat, hti⟩, List.get?_eq_get hti, ?_⟩
    unfold getCard
    rw [hpg, List.get?_eq_get hti]
  · intro i hbad
    have hpg : pyGet cat i = none := by
      unfold pyGet
      rw [if_neg (by omega), if_neg (by omega)]
    simp [getCard, hpg]

/-- Witness for C9's amended statement: getCard accepts index -1 over
the two-card catalog, via the negative-indexing clause. -/
theorem getCard_spec_witness :
    ∃ c, cat2.get? ((-1 : Int) + (cat2.length : Int)).toNat = some c ∧
      getCard cat2 (-1) = Except.ok c :=
  (getCard_spec cat2).2.1 (-1) (by decide) (by decide)
